import Mathlib

/-!
Shallow embedding of `src/Rsat.py` (the rsat2 pipeline): Stage-1 CSV
normalization and the Stage-2 RSAT scorer (tokenize / split_sentences /
rsat_score / process_responses), together with proofs checking the
natural-language specification against this embedding.

Modelling conventions:
* Python strings are Lean `String` (ASCII model: `\w` = `Char.isAlphanum`
  or underscore, matching the ASCII fragment of Python's `re`).
* A possibly-missing CSV cell (`row.get(...)` returning `None`, or a
  pandas NaN) is `Option String`.
* Python floats are modelled as exact rationals `ℚ`; the `round(x, 3)`
  applied at serialization time is not modelled (the claims under study
  are about the unrounded metric values and the emitted row structure).
  Where IEEE rounding itself is in question, binary64 values and
  round-to-nearest are modelled explicitly (`IsDouble`,
  `IsNearestDouble`): the doubles the program stores are the correctly
  rounded values of the exact ratios computed here.
-/

/-- Word characters of the regex `\w` (ASCII fragment): letters, digits,
underscore.  `\W` is its negation. -/
def isWordChar (c : Char) : Bool := c.isAlphanum || c = '_'

/-- The sentence-terminal punctuation class `[.!?]` of `split_sentences`. -/
def isSentencePunct (c : Char) : Bool := c = '.' || c = '!' || c = '?'

/-- Python `text or ""` for a possibly-`None` string. -/
def pyOrEmpty (t : Option String) : String := t.getD ""

/-- Python `str.lower()` (ASCII model), char by char. -/
def lowerStr (s : String) : String := String.mk (s.toList.map Char.toLower)

/-- Python `str.strip()`: remove leading and trailing whitespace. -/
def pyStrip (s : String) : String :=
  String.mk (((s.toList.dropWhile Char.isWhitespace).reverse.dropWhile Char.isWhitespace).reverse)

/-- `re.split(r"\W+", s)`, one character at a time.  The state is either
`some acc` — a piece `acc` (reversed) is being accumulated — or `none` —
the scanner is inside a run of non-word characters, which the regex `\W+`
consumes as a single delimiter.  A delimiter run ends the current piece;
the implicit empty piece before a leading run and after a trailing run is
produced exactly as `re.split` does. -/
def splitWpGo : List Char → Option (List Char) → List (List Char)
  | [], some acc => [acc.reverse]
  | [], none => [[]]
  | c :: cs, some acc =>
    if isWordChar c then splitWpGo cs (some (c :: acc))
    else acc.reverse :: splitWpGo cs none
  | c :: cs, none =>
    if isWordChar c then splitWpGo cs (some [c]) else splitWpGo cs none

/-- `re.split(r"\W+", s)` applied to a character list. -/
def splitWp (l : List Char) : List (List Char) := splitWpGo l (some [])

/-- `re.split` over a single-character class (used for `[.!?]` in
`split_sentences`): every delimiter occurrence ends the current piece,
so consecutive delimiters yield empty pieces. -/
def splitSingle (p : Char → Bool) (l : List Char) (acc : List Char) : List (List Char) :=
  match l with
  | [] => [acc.reverse]
  | c :: cs => if p c then acc.reverse :: splitSingle p cs [] else splitSingle p cs (c :: acc)

/-- Truthiness of Python `s.strip()`: true iff `s` has a non-whitespace
character. -/
def stripTruthy (s : List Char) : Bool := s.any (fun c => !c.isWhitespace)

/-- `tokenize(text)`:
`words = re.split(r"\W+", (text or "").lower()); return set(w for w in words if w)`. -/
def tokenize (text : Option String) : Finset String :=
  let words := splitWp ((pyOrEmpty text).toList.map Char.toLower)
  ((words.filter (fun w => w ≠ [])).map String.mk).toFinset

/-- `split_sentences(text)`:
`sentences = re.split(r"[.!?]", text or ""); return [tokenize(s) for s in sentences if s.strip()]`. -/
def split_sentences (text : Option String) : List (Finset String) :=
  let sentences := splitSingle isSentencePunct (pyOrEmpty text).toList []
  (sentences.filter stripTruthy).map (fun s => tokenize (some (String.mk s)))

/-- The tuple returned by `rsat_score`. -/
structure RsatResult where
  paraphrasing : ℚ
  elaboration : ℚ
  effort : ℕ
  total_words : ℕ
deriving DecidableEq

/-- `set(word for sent in passage_sentences for word in sent)`. -/
def allPassageWords (passage_sentences : List (Finset String)) : Finset String :=
  passage_sentences.foldr (· ∪ ·) ∅

/-- `rsat_score(response_words, passage_sentences)` from `src/Rsat.py`. -/
def rsat_score (response_words : Finset String) (passage_sentences : List (Finset String)) :
    RsatResult :=
  let all_passage_words := allPassageWords passage_sentences
  let overlap := (response_words ∩ all_passage_words).card
  { paraphrasing :=
      if all_passage_words ≠ ∅ then (overlap : ℚ) / all_passage_words.card else 0
    elaboration :=
      if all_passage_words ≠ ∅ then
        ((response_words \ all_passage_words).card : ℚ) / all_passage_words.card
      else 0
    effort := response_words.card
    total_words := all_passage_words.card }

/-- `total_effort = effort / total_words if total_words else 0.0`
(computed in the row loop of `process_responses`). -/
def total_effort (effort : ℕ) (total_words : ℕ) : ℚ :=
  if total_words ≠ 0 then (effort : ℚ) / total_words else 0

/-! ### Stage 1: the pandas normalizer (lines 8-42 of `src/Rsat.py`) -/

/-- `pandas .astype(str)` on one cell: a missing value (NaN) becomes the
literal string `"nan"`; a present string stays itself. -/
def pyAstypeStr (cell : Option String) : String :=
  match cell with
  | none => "nan"
  | some s => s

/-- Python `str.upper()` (ASCII model), char by char. -/
def upperStr (s : String) : String := String.mk (s.toList.map Char.toUpper)

/-- First match of the regex `Q\d+` in a character list: scan left to
right; at the first position holding `Q` immediately followed by at least
one digit, return `Q` with the maximal digit run; case-sensitive, exactly
as `.str.extract(r"(Q\d+)")`. -/
def extractQGo : List Char → Option (List Char)
  | [] => none
  | c :: cs =>
    if c = 'Q' ∧ cs.takeWhile Char.isDigit ≠ [] then some ('Q' :: cs.takeWhile Char.isDigit)
    else extractQGo cs

/-- `.str.extract(r"(Q\d+)", expand=False).str.upper()` on one value:
`none` models the NaN produced when the pattern does not occur. -/
def normalizeQid (s : String) : Option String :=
  (extractQGo s.toList).map (fun l => upperStr (String.mk l))

/-- One raw Stage-1 input row restricted to the four wanted columns;
`none` models a missing/NaN cell. -/
structure RawRow where
  pid : Option String
  article_id : Option String
  question_id : Option String
  summary_text : Option String
deriving DecidableEq

/-- One cleaned Stage-1 output row (the four cleaned columns). -/
structure CleanRow where
  pid : String
  article_id : String
  question_id : String
  summary_text : String
deriving DecidableEq

/-- Per-field cleaning of lines 24-34: `astype(str).str.strip()` on every
column, then Question_ID is replaced by its extracted, upper-cased `Q\d+`
pattern (or NaN). -/
def cleanFields (r : RawRow) : String × String × Option String × String :=
  (pyStrip (pyAstypeStr r.pid),
   pyStrip (pyAstypeStr r.article_id),
   normalizeQid (pyStrip (pyAstypeStr r.question_id)),
   pyStrip (pyAstypeStr r.summary_text))

/-- The row filter of lines 36-38: `dropna` on the three key columns
(after `astype(str)` only the extracted Question_ID can still be NaN),
then the three `!= ""` comparisons.  Article_ID plays no part. -/
def keepRow (r : RawRow) : Bool :=
  match cleanFields r with
  | (pid, _, some qid, text) => pid ≠ "" && qid ≠ "" && text ≠ ""
  | (_, _, none, _) => false

/-- The cleaned row written for a surviving record. -/
def cleanRow (r : RawRow) : CleanRow :=
  match cleanFields r with
  | (pid, aid, qid, text) => ⟨pid, aid, qid.getD "", text⟩

/-- `wanted`: the four required Stage-1 columns (line 13). -/
def wanted : List String := ["Participant Private ID", "Article_ID", "Question_ID", "Summary_Text"]

/-- `df.columns.str.strip()` (line 11). -/
def stripHeader (cols : List String) : List String := cols.map pyStrip

/-- `missing = [c for c in wanted if c not in df.columns]` (line 16). -/
def missingCols (cols : List String) : List String :=
  wanted.filter (fun c => ¬ c ∈ stripHeader cols)

/-- Stage 1 as a whole (lines 8-42): given the trimmed-header check, either
abort with the `KeyError` payload — the missing columns and the columns
that were found — or clean and filter every row.  No row is processed in
the error case. -/
def stage1 (cols : List String) (rows : List RawRow) :
    Except (List String × List String) (List CleanRow) :=
  if missingCols cols ≠ [] then Except.error (missingCols cols, stripHeader cols)
  else Except.ok ((rows.filter keepRow).map cleanRow)

/-! ### Stage 2: `process_responses` (lines 67-127 of `src/Rsat.py`) -/

/-- One row of the passages lookup file, as `csv.DictReader` delivers it. -/
structure PassageRow where
  article_id : Option String
  passage : Option String

/-- The passages dict built by the loading loop (lines 69-78): key =
`str(row.get("Article_ID") or "").strip().lower()`, value = trimmed
passage text; rows with an empty key or empty text are skipped; a repeated
key overwrites (last wins). -/
def loadPassages (rows : List PassageRow) : String → Option String :=
  rows.foldl
    (fun d row =>
      let article_id := lowerStr (pyStrip (pyOrEmpty row.article_id))
      let passage := pyStrip (pyOrEmpty row.passage)
      if article_id ≠ "" ∧ passage ≠ "" then
        fun k => if k = article_id then some passage else d k
      else d)
    (fun _ => none)

/-- One row of the cleaned responses file, as `csv.DictReader` delivers
it (`none` models a missing field). -/
structure RespRow where
  pid : Option String
  article_id : Option String
  question_id : Option String
  summary_text : Option String

/-- One emitted scored row (lines 115-124): the cleaned text fields — with
the *original* Article_ID cell — and the four metrics (unrounded here;
`round(_, 3)` is serialization-only). -/
structure OutRow where
  pid : String
  article_id : Option String
  question_id : String
  summary_text : String
  paraphrasing : ℚ
  elaboration : ℚ
  effort : ℕ
  total_effort_pct : ℚ
deriving DecidableEq

/-- The warning of line 106: `f"Warning: no passage for Article_ID='{...}'"`. -/
def warnMsg (article_id : String) : String :=
  "Warning: no passage for Article_ID=\x27" ++ article_id ++ "\x27"

/-- The body of the row loop (lines 94-124) for one response row: returns
the emitted row (if any) and the warnings printed for this row. -/
def processRow (passages : String → Option String) (row : RespRow) :
    Option OutRow × List String :=
  let pid := pyStrip (pyOrEmpty row.pid)
  let article_id := lowerStr (pyStrip (pyOrEmpty row.article_id))
  let qid := pyStrip (pyOrEmpty row.question_id)
  let response := pyStrip (pyOrEmpty row.summary_text)
  if pid = "" ∨ article_id = "" ∨ response = "" then (none, [])
  else
    match passages article_id with
    | none => (none, [warnMsg article_id])
    | some passage =>
      let passage_sentences := split_sentences (some passage)
      let response_words := tokenize (some response)
      let r := rsat_score response_words passage_sentences
      (some
        { pid := pid
          article_id := row.article_id
          question_id := qid
          summary_text := response
          paraphrasing := r.paraphrasing
          elaboration := r.elaboration
          effort := r.effort
          total_effort_pct := total_effort r.effort r.total_words },
       [])

/-- The whole row loop: rows are processed in order; a skipped row
contributes no output row, and processing always continues with the
remaining rows. -/
def processRows (passages : String → Option String) : List RespRow → List OutRow × List String
  | [] => ([], [])
  | row :: rest =>
    let this := processRow passages row
    let others := processRows passages rest
    (this.1.toList ++ others.1, this.2 ++ others.2)

/-- The fixed output header of lines 87-90. -/
def fieldnames : List String :=
  ["Participant Private ID", "Article_ID", "Question_ID", "Summary_Text",
   "paraphrasing (%)", "elaboration (%)", "effort (words)", "total_effort (%)"]

/-! ### Auxiliary notions used by the proofs -/

/-- The delimiter class `\W` of `re.split(r"\W+", ...)`. -/
def nonWordChar (c : Char) : Bool := !(isWordChar c)

/-- The token set of a character list, via the single-character splitter:
the nonempty pieces of the `\W`-split.  `tokenize` agrees with this on the
lower-cased input (`tokenize_eq_tokSetL`), because splitting on `\W+` and
on `\W` produce the same nonempty pieces. -/
def tokSetL (l : List Char) : Finset String :=
  (((splitSingle nonWordChar l []).filter (fun w => w ≠ [])).map String.mk).toFinset

/-- A finite IEEE binary64 value: an integer significand of magnitude at
most 2^53 scaled by a power of two.  The exponent is left unconstrained
(no overflow or subnormal bound), which only enlarges the set — so being
strictly nearest among these values is stronger than being strictly
nearest among actual doubles.  This refines, where rounding matters, the
exact-ℚ idealization used for the metric values themselves. -/
def IsDouble (x : ℚ) : Prop :=
  ∃ (n e : ℤ), |n| ≤ 2^53 ∧ x = (n : ℚ) * (2:ℚ)^e

/-- `x` is the binary64 value IEEE round-to-nearest assigns to `q`, in
the strict sense that every other representable value is strictly
farther from `q`.  Such an `x` is unique when it exists, and it is what
IEEE 754 division — which is correctly rounded — stores for an exact
quotient `q`. -/
def IsNearestDouble (q x : ℚ) : Prop :=
  IsDouble x ∧ ∀ y, IsDouble y → y ≠ x → |q - x| < |q - y|

/-! ### Splitter lemmas -/

/-- Splitting on `\W+` and splitting on single `\W` characters produce the
same nonempty pieces (they differ only in the empty pieces a delimiter run
would generate). -/
theorem splitWpGo_filter (l : List Char) :
    (∀ acc, (splitWpGo l (some acc)).filter (fun w => w ≠ []) =
      (splitSingle nonWordChar l acc).filter (fun w => w ≠ [])) ∧
    (splitWpGo l none).filter (fun w => w ≠ []) =
      (splitSingle nonWordChar l []).filter (fun w => w ≠ []) := by
  induction l with
  | nil => exact ⟨fun acc => rfl, rfl⟩
  | cons c cs ih =>
    obtain ⟨ih1, ih2⟩ := ih
    constructor
    · intro acc
      by_cases h : isWordChar c
      · simp only [splitWpGo, splitSingle, nonWordChar, h, Bool.not_true, if_true,
          Bool.false_eq_true, if_false]
        exact ih1 (c :: acc)
      · simp only [splitWpGo, splitSingle, nonWordChar, h, Bool.not_false, if_true,
          Bool.false_eq_true, if_false, List.filter_cons, ih2]
    · by_cases h : isWordChar c
      · simp only [splitWpGo, splitSingle, nonWordChar, h, Bool.not_true, if_true,
          Bool.false_eq_true, if_false]
        exact ih1 [c]
      · simp only [splitWpGo, splitSingle, nonWordChar, h, Bool.not_false, if_true,
          Bool.false_eq_true, if_false, List.filter_cons, ih2, List.reverse_nil]
        simp

/-- `tokenize` through the canonical single-character splitter. -/
theorem tokenize_eq_tokSetL (t : Option String) :
    tokenize t = tokSetL ((pyOrEmpty t).toList.map Char.toLower) := by
  simp only [tokenize, tokSetL, splitWp]
  rw [(splitWpGo_filter _).1 []]

/-- A single delimiter occurrence splits `splitSingle` around it. -/
theorem splitSingle_append (p : Char → Bool) (d : Char) (hd : p d = true) (b : List Char) :
    ∀ (a acc : List Char),
      splitSingle p (a ++ d :: b) acc = splitSingle p a acc ++ splitSingle p b [] := by
  intro a
  induction a with
  | nil => intro acc; simp [splitSingle, hd]
  | cons c cs ih =>
    intro acc
    by_cases h : p c
    · simp [splitSingle, h, ih]
    · simp [splitSingle, h, ih]

/-- Token sets concatenate across a non-word character. -/
theorem tokSetL_append (d : Char) (hd : nonWordChar d = true) (a b : List Char) :
    tokSetL (a ++ d :: b) = tokSetL a ∪ tokSetL b := by
  unfold tokSetL
  rw [splitSingle_append nonWordChar d hd b a []]
  simp [List.filter_append, List.toFinset_append]

/-- A list made of delimiters only yields no nonempty piece. -/
theorem splitSingle_all_delim (p : Char → Bool) (l : List Char) (h : ∀ c ∈ l, p c = true) :
    (splitSingle p l []).filter (fun w => w ≠ []) = [] := by
  induction l with
  | nil => rfl
  | cons c cs ih =>
    have hc : p c = true := h c (List.mem_cons_self c cs)
    simp only [splitSingle, hc, if_true, List.reverse_nil, List.filter_cons, ne_eq,
      not_true_eq_false, decide_False]
    exact ih (fun x hx => h x (List.mem_cons_of_mem c hx))

/-- A list made of non-word characters only has an empty token set. -/
theorem tokSetL_all_delim (l : List Char) (h : ∀ c ∈ l, nonWordChar c = true) :
    tokSetL l = ∅ := by
  unfold tokSetL
  rw [splitSingle_all_delim nonWordChar l h]
  rfl

/-! ### Character-level lemmas -/

/-- Lower-casing never yields an upper-case character. -/
theorem isUpper_toLower (c : Char) : (Char.toLower c).isUpper = false := by
  show (if 65 ≤ c.toNat ∧ c.toNat ≤ 90 then Char.ofNat (c.toNat + 32) else c).isUpper = false
  by_cases h : 65 ≤ c.toNat ∧ c.toNat ≤ 90
  · rw [if_pos h]
    obtain ⟨h1, h2⟩ := h
    generalize c.toNat = n at h1 h2 ⊢
    interval_cases n <;> decide
  · rw [if_neg h]
    show (decide (c.val ≥ 65) && decide (c.val ≤ 90)) = false
    rcases Decidable.not_and_iff_or_not.mp h with h65 | h90
    · have : ¬(65 : UInt32) ≤ c.val := fun hle =>
        h65 (UInt32.le_toNat_of_le (by decide) hle)
      simp [this]
    · have : ¬c.val ≤ (90 : UInt32) := fun hle =>
        h90 (UInt32.toNat_le_of_le (by decide) hle)
      simp [this]

/-- Sentence punctuation is one of the three concrete characters. -/
theorem sentencePunct_cases (c : Char) (h : isSentencePunct c = true) :
    c = '.' ∨ c = '!' ∨ c = '?' := by
  simpa [isSentencePunct, or_assoc] using h

/-- Sentence punctuation is fixed by lower-casing and is a non-word
character. -/
theorem sentencePunct_props (c : Char) (h : isSentencePunct c = true) :
    Char.toLower c = c ∧ nonWordChar c = true := by
  rcases sentencePunct_cases c h with h | h | h <;> subst h <;> exact ⟨by decide, by decide⟩

/-- A whitespace character stays a non-word character after lower-casing. -/
theorem whitespace_toLower_nonWord (c : Char) (h : c.isWhitespace = true) :
    nonWordChar (Char.toLower c) = true := by
  have hc : c = ' ' ∨ c = '\t' ∨ c = '\r' ∨ c = '\n' := by
    simpa [Char.isWhitespace, or_assoc] using h
  rcases hc with h | h | h | h <;> subst h <;> decide

/-- A blank (whitespace-only) segment has an empty token set even after
lower-casing. -/
theorem tokSetL_blank (s : List Char) (h : stripTruthy s = false) :
    tokSetL (s.map Char.toLower) = ∅ := by
  apply tokSetL_all_delim
  intro c hc
  rcases List.mem_map.mp hc with ⟨d, hd, rfl⟩
  have hw : d.isWhitespace = true := by
    have := List.any_eq_false.mp h d hd
    simpa using this
  exact whitespace_toLower_nonWord d hw

/-- Every character of every piece of `splitSingle` comes from the
accumulator or from the input. -/
theorem splitSingle_chars (p : Char → Bool) (l : List Char) :
    ∀ acc w, w ∈ splitSingle p l acc → ∀ c ∈ w, c ∈ acc ∨ c ∈ l := by
  induction l with
  | nil =>
    intro acc w hw c hc
    simp only [splitSingle, List.mem_singleton] at hw
    subst hw
    exact Or.inl (List.mem_reverse.mp hc)
  | cons x xs ih =>
    intro acc w hw c hc
    by_cases h : p x
    · simp only [splitSingle, h, if_true, List.mem_cons] at hw
      rcases hw with rfl | hw
      · exact Or.inl (List.mem_reverse.mp hc)
      · rcases ih [] w hw c hc with h' | h'
        · cases h'
        · exact Or.inr (List.mem_cons_of_mem x h')
    · simp only [splitSingle, h, if_false] at hw
      rcases ih (x :: acc) w hw c hc with h' | h'
      · rcases List.mem_cons.mp h' with rfl | h''
        · exact Or.inr (List.mem_cons_self c xs)
        · exact Or.inl h''
      · exact Or.inr (List.mem_cons_of_mem x h')

/-- With the `\W` delimiter class, every character of every piece is a
word character (provided the accumulator holds word characters). -/
theorem splitSingle_word_chars (l : List Char) :
    ∀ acc, (∀ c ∈ acc, isWordChar c = true) →
      ∀ w ∈ splitSingle nonWordChar l acc, ∀ c ∈ w, isWordChar c = true := by
  induction l with
  | nil =>
    intro acc hacc w hw c hc
    simp only [splitSingle, List.mem_singleton] at hw
    subst hw
    exact hacc c (List.mem_reverse.mp hc)
  | cons x xs ih =>
    intro acc hacc w hw c hc
    by_cases h : nonWordChar x
    · simp only [splitSingle, h, if_true, List.mem_cons] at hw
      rcases hw with rfl | hw
      · exact hacc c (List.mem_reverse.mp hc)
      · exact ih [] (by simp) w hw c hc
    · simp only [splitSingle, h, if_false] at hw
      have hx : isWordChar x = true := by
        simpa [nonWordChar] using h
      refine ih (x :: acc) ?_ w hw c hc
      intro c' hc'
      rcases List.mem_cons.mp hc' with rfl | hmem
      · exact hx
      · exact hacc c' hmem

theorem allPassageWords_nil : allPassageWords [] = ∅ := rfl

theorem allPassageWords_cons (s : Finset String) (l : List (Finset String)) :
    allPassageWords (s :: l) = s ∪ allPassageWords l := rfl

/-- Generalized form of the sentence-union property: splitting a text at
sentence punctuation, dropping blank segments and tokenizing the rest
yields, in union, exactly the token set of the whole text. -/
theorem sentence_union_go (l : List Char) :
    ∀ acc, allPassageWords
        (((splitSingle isSentencePunct l acc).filter stripTruthy).map
          (fun s => tokenize (some (String.mk s)))) =
      tokSetL ((acc.reverse ++ l).map Char.toLower) := by
  induction l with
  | nil =>
    intro acc
    by_cases h : stripTruthy acc.reverse
    · simp only [splitSingle, List.filter_cons, h, if_true, List.filter_nil, List.map_cons,
        List.map_nil, allPassageWords_cons, allPassageWords_nil, Finset.union_empty,
        List.append_nil]
      rw [tokenize_eq_tokSetL]
      rfl
    · simp only [splitSingle, List.filter_cons, h, Bool.false_eq_true, if_false,
        List.filter_nil, List.map_nil, allPassageWords_nil, List.append_nil]
      exact (tokSetL_blank acc.reverse (Bool.eq_false_iff.mpr h)).symm
  | cons c cs ih =>
    intro acc
    by_cases h : isSentencePunct c
    · obtain ⟨hlow, hnw⟩ := sentencePunct_props c h
      have hrw : (acc.reverse ++ c :: cs).map Char.toLower =
          acc.reverse.map Char.toLower ++ c :: cs.map Char.toLower := by
        simp [hlow]
      rw [hrw, tokSetL_append c hnw]
      by_cases hs : stripTruthy acc.reverse
      · simp only [splitSingle, h, if_true, List.filter_cons, hs, List.map_cons,
          allPassageWords_cons]
        rw [show (List.filter stripTruthy (splitSingle isSentencePunct cs [])).map
              (fun s => tokenize (some (String.mk s))) =
            ((splitSingle isSentencePunct cs []).filter stripTruthy).map
              (fun s => tokenize (some (String.mk s))) from rfl, ih []]
        rw [tokenize_eq_tokSetL]
        rfl
      · simp only [splitSingle, h, if_true, List.filter_cons, hs, Bool.false_eq_true, if_false]
        rw [ih []]
        rw [tokSetL_blank acc.reverse (Bool.eq_false_iff.mpr hs)]
        simp
    · simp only [splitSingle, h, Bool.false_eq_true, if_false]
      rw [ih (c :: acc)]
      simp [List.append_assoc]

/-! ### IEEE binary64 rounding lemmas -/

/-- Certify a strictly-nearest double from the scaled-integer picture: if
`n` is a normalized significand (between 2^52 + 1 and 2^53 − 1) and the
scaled value `q · 2^(−e)` lies strictly within 1/2 of `n`, then `n · 2^e`
is strictly closer to `q` than every other representable value: values on
the same or a coarser grid scale to integers at distance ≥ 1 − 1/2 from
the scaled `q`, and values on a finer grid are bounded by 2^52 · 2^e,
hence at least half a ulp below `q`. -/
theorem isNearestDouble_cert (n e : ℤ) (q : ℚ)
    (hn1 : 2^52 + 1 ≤ n) (hn2 : n ≤ 2^53 - 1)
    (hd : |q * (2:ℚ)^(-e) - (n:ℚ)| < 1/2) :
    IsNearestDouble q ((n:ℚ) * (2:ℚ)^e) := by
  have h2 : (2:ℚ) ≠ 0 := by norm_num
  have hpe : (0:ℚ) < (2:ℚ)^e := zpow_pos (by norm_num) e
  have hpne : (0:ℚ) < (2:ℚ)^(-e) := zpow_pos (by norm_num) (-e)
  have hcancel : (2:ℚ)^e * (2:ℚ)^(-e) = 1 := by
    rw [← zpow_add₀ h2]
    norm_num
  have key : ∀ r : ℚ, |q - r| = |q * (2:ℚ)^(-e) - r * (2:ℚ)^(-e)| * (2:ℚ)^e := by
    intro r
    rw [← sub_mul, abs_mul, abs_of_pos hpne, mul_assoc, ← zpow_add₀ h2]
    norm_num
  constructor
  · refine ⟨n, e, ?_, rfl⟩
    have : (0:ℤ) < n := lt_of_lt_of_le (by norm_num) hn1
    rw [abs_of_pos this]
    omega
  · rintro y ⟨m, f, hm, rfl⟩ hne
    rw [key ((n:ℚ) * (2:ℚ)^e), key ((m:ℚ) * (2:ℚ)^f)]
    have hx : (n:ℚ) * (2:ℚ)^e * (2:ℚ)^(-e) = (n:ℚ) := by
      rw [mul_assoc, hcancel, mul_one]
    rw [hx]
    apply mul_lt_mul_of_pos_right _ hpe
    rcases le_or_lt e f with hef | hef
    · have hfe : (0:ℤ) ≤ f - e := by omega
      have hyk : (m:ℚ) * (2:ℚ)^f * (2:ℚ)^(-e) = ((m * 2^(f-e).toNat : ℤ) : ℚ) := by
        push_cast
        rw [mul_assoc, ← zpow_add₀ h2, ← zpow_natCast (2:ℚ) (f-e).toNat,
          Int.toNat_of_nonneg hfe]
        ring_nf
      set k : ℤ := m * 2^(f-e).toNat with hk
      rw [hyk]
      have hkn : k ≠ n := by
        intro hcon
        apply hne
        have h3 := congrArg (fun z => z * (2:ℚ)^e) hyk
        simp only [mul_assoc, mul_comm ((2:ℚ)^(-e)) ((2:ℚ)^e), hcancel, mul_one] at h3
        rw [h3, hcon]
      have h1k : (1:ℚ) ≤ |(n:ℚ) - (k:ℚ)| := by
        rw [← Int.cast_sub, ← Int.cast_abs]
        exact_mod_cast Int.one_le_abs (sub_ne_zero.mpr (fun hcon => hkn hcon.symm))
      have tri : |(n:ℚ) - (k:ℚ)| ≤ |(n:ℚ) - q * (2:ℚ)^(-e)| + |q * (2:ℚ)^(-e) - (k:ℚ)| :=
        abs_sub_le _ _ _
      rw [abs_sub_comm ((n:ℚ)) (q * (2:ℚ)^(-e))] at tri
      linarith
    · have hmf : |(m:ℚ) * (2:ℚ)^f * (2:ℚ)^(-e)| ≤ 2^52 := by
        rw [abs_mul, abs_mul, abs_of_pos (zpow_pos (by norm_num : (0:ℚ) < 2) f),
          abs_of_pos hpne, mul_assoc, ← zpow_add₀ h2]
        have hmq : |(m:ℚ)| ≤ (2:ℚ)^(53:ℤ) := by
          rw [show ((2:ℚ)^(53:ℤ) : ℚ) = ((2^53 : ℤ) : ℚ) by push_cast; norm_num]
          exact_mod_cast hm
        have hfe : (2:ℚ)^(f + -e) ≤ (2:ℚ)^(-1:ℤ) :=
          zpow_le_zpow_right₀ (by norm_num) (by omega)
        calc |(m:ℚ)| * (2:ℚ)^(f + -e) ≤ (2:ℚ)^(53:ℤ) * (2:ℚ)^(-1:ℤ) :=
              mul_le_mul hmq hfe (le_of_lt (zpow_pos (by norm_num) _))
                (le_of_lt (zpow_pos (by norm_num) _))
          _ = 2^52 := by rw [← zpow_add₀ h2]; norm_num
      have hq2 : 2^52 + 1/2 ≤ q * (2:ℚ)^(-e) := by
        have hn' : (2:ℚ)^52 + 1 ≤ (n:ℚ) := by
          rw [show ((2:ℚ)^52 + 1 : ℚ) = ((2^52 + 1 : ℤ) : ℚ) by push_cast; norm_num]
          exact_mod_cast hn1
        have := abs_lt.mp hd
        linarith [this.1]
      have hy' : (m:ℚ) * (2:ℚ)^f * (2:ℚ)^(-e) ≤ 2^52 := le_trans (le_abs_self _) hmf
      have hgap : 1/2 ≤ q * (2:ℚ)^(-e) - (m:ℚ) * (2:ℚ)^f * (2:ℚ)^(-e) := by linarith
      calc |q * (2:ℚ)^(-e) - (n:ℚ)| < 1/2 := hd
        _ ≤ q * (2:ℚ)^(-e) - (m:ℚ) * (2:ℚ)^f * (2:ℚ)^(-e) := hgap
        _ ≤ |q * (2:ℚ)^(-e) - (m:ℚ) * (2:ℚ)^f * (2:ℚ)^(-e)| := le_abs_self _

/-- A strictly-nearest double is unique. -/
theorem isNearestDouble_unique (q x y : ℚ) (hx : IsNearestDouble q x)
    (hy : IsNearestDouble q y) : x = y := by
  by_contra hne
  have h1 := hx.2 y hy.1 (fun h => hne h.symm)
  have h2 := hy.2 x hx.1 hne
  linarith

/-! ### Claims -/

/-- **C1**: `rsat_score` returns paraphrasing = |R ∩ allPassageWords| /
|allPassageWords| (0 if the passage token set is empty), elaboration =
|R − allPassageWords| / |allPassageWords| (0 if empty), effort = |R| and
totalWords = |allPassageWords|, with total_effort = effort / totalWords
(0 if totalWords = 0); and on the spec's scenario — passage
"The cat sat. The cat ran!", response "The cat sat on mat" — the results
are paraphrasing = 0.75, elaboration = 0.5, effort = 5,
total_effort = 1.25. -/
theorem rsat_score_formula_and_scenario :
    (∀ (R : Finset String) (sents : List (Finset String)),
      (rsat_score R sents).paraphrasing =
        (if allPassageWords sents = ∅ then 0 else
          ((R ∩ allPassageWords sents).card : ℚ) / (allPassageWords sents).card) ∧
      (rsat_score R sents).elaboration =
        (if allPassageWords sents = ∅ then 0 else
          ((R \ allPassageWords sents).card : ℚ) / (allPassageWords sents).card) ∧
      (rsat_score R sents).effort = R.card ∧
      (rsat_score R sents).total_words = (allPassageWords sents).card ∧
      total_effort (rsat_score R sents).effort (rsat_score R sents).total_words =
        (if (allPassageWords sents).card = 0 then 0 else
          (R.card : ℚ) / (allPassageWords sents).card)) ∧
    rsat_score (tokenize (some "The cat sat on mat"))
        (split_sentences (some "The cat sat. The cat ran!")) =
      { paraphrasing := 3/4, elaboration := 1/2, effort := 5, total_words := 4 } ∧
    total_effort 5 4 = 5/4 := by
  refine ⟨fun R sents => ?_, ?_, ?_⟩
  · by_cases h : allPassageWords sents = ∅
    · simp [rsat_score, total_effort, h]
    · have hc : (allPassageWords sents).card ≠ 0 := by
        simpa [Finset.card_eq_zero] using h
      simp [rsat_score, total_effort, h, hc]
  · have h1 : (tokenize (some "The cat sat on mat") ∩
        allPassageWords (split_sentences (some "The cat sat. The cat ran!"))).card = 3 := by decide
    have h2 : (tokenize (some "The cat sat on mat") \
        allPassageWords (split_sentences (some "The cat sat. The cat ran!"))).card = 2 := by decide
    have h3 : (tokenize (some "The cat sat on mat")).card = 5 := by decide
    have h4 : (allPassageWords (split_sentences (some "The cat sat. The cat ran!"))).card = 4 := by
      decide
    have h5 : allPassageWords (split_sentences (some "The cat sat. The cat ran!")) ≠ ∅ := by decide
    simp only [rsat_score, h1, h2, h3, h4, if_pos h5, RsatResult.mk.injEq]
    norm_num
  · rw [total_effort]
    norm_num

/-- **C2** (corrected, counterexample): for the response token set of
"alpha beta" and the passage "gamma" the two sets are disjoint and the
passage is non-empty, yet elaboration is 2, not 1.0: the claim
"elaboration = 1.0 for every disjoint response" is false on the code. -/
theorem disjoint_elaboration_counterexample :
    tokenize (some "alpha beta") ∩ allPassageWords (split_sentences (some "gamma")) = ∅ ∧
    allPassageWords (split_sentences (some "gamma")) ≠ ∅ ∧
    (rsat_score (tokenize (some "alpha beta"))
      (split_sentences (some "gamma"))).elaboration ≠ 1 := by
  refine ⟨by decide, by decide, ?_⟩
  have h2 : (tokenize (some "alpha beta") \
      allPassageWords (split_sentences (some "gamma"))).card = 2 := by decide
  have h1 : (allPassageWords (split_sentences (some "gamma"))).card = 1 := by decide
  have hne : allPassageWords (split_sentences (some "gamma")) ≠ ∅ := by decide
  simp only [rsat_score, h2, h1, if_pos hne]
  norm_num

/-- **C2** (amended): for every response token set disjoint from a
non-empty passage token set, `rsat_score` returns paraphrasing = 0.0 and
elaboration = |R| / |allPassageWords| (which equals 1.0 only when the
response has exactly as many distinct tokens as the passage). -/
theorem disjoint_response_scores (R : Finset String) (sents : List (Finset String))
    (hdisj : R ∩ allPassageWords sents = ∅)
    (hne : allPassageWords sents ≠ ∅) :
    (rsat_score R sents).paraphrasing = 0 ∧
    (rsat_score R sents).elaboration = (R.card : ℚ) / (allPassageWords sents).card := by
  have hsd : R \ allPassageWords sents = R := by
    rw [sdiff_eq_self_iff_disjoint']
    rw [Finset.disjoint_iff_inter_eq_empty]
    exact hdisj
  simp [rsat_score, hne, hdisj, hsd]

/-- Witness for `disjoint_response_scores` at the response "alpha beta"
against the passage "gamma". -/
theorem disjoint_response_scores_witness :
    (rsat_score (tokenize (some "alpha beta"))
      (split_sentences (some "gamma"))).paraphrasing = 0 ∧
    (rsat_score (tokenize (some "alpha beta"))
        (split_sentences (some "gamma"))).elaboration =
      ((tokenize (some "alpha beta")).card : ℚ) /
        (allPassageWords (split_sentences (some "gamma"))).card :=
  disjoint_response_scores _ _ (by decide) (by decide)

/-- **C3** (code bug): `.str.extract(r"(Q\d+)")` is case-sensitive, so the
raw value "q3_followup" yields no match (the row is dropped), contradicting
the claimed case-insensitive normalization to "Q3"; the upper-case variant
does match, showing the filter is exactly case-sensitivity. -/
theorem questionId_normalization_case_sensitive :
    normalizeQid "q3_followup" = none ∧
    normalizeQid "Q3_followup" = some "Q3" ∧
    keepRow ⟨some "p1", some "A1", some "q3_followup", some "summary text"⟩ = false ∧
    keepRow ⟨some "p1", some "A1", some "Q3_followup", some "summary text"⟩ = true := by
  exact ⟨by decide, by decide, by decide, by decide⟩

/-- **C4** (code bug): a Stage-1 row whose participant cell is missing
(NaN) survives the filter, because `astype(str)` has already turned the
NaN into the literal string "nan" before `dropna` runs; the cleaned row
carries participant id "nan". -/
theorem stage1_keeps_nan_participant :
    keepRow ⟨none, some "A1", some "Q1", some "hello"⟩ = true ∧
    (cleanFields ⟨none, some "A1", some "Q1", some "hello"⟩).1 = "nan" ∧
    cleanRow ⟨none, some "A1", some "Q1", some "hello"⟩ = ⟨"nan", "A1", "Q1", "hello"⟩ ∧
    keepRow ⟨some "p1", some "A1", some "Q1", none⟩ = true := by
  exact ⟨by decide, by decide, by decide, by decide⟩

/-- **C6**: if any required column is missing from the (whitespace-trimmed)
Stage-1 header, the whole run aborts with an error carrying exactly the
missing columns and the columns that were found, and no row is processed
into an output table. -/
theorem stage1_missing_columns_abort (cols : List String) (rows : List RawRow)
    (h : missingCols cols ≠ []) :
    stage1 cols rows = Except.error (missingCols cols, stripHeader cols) ∧
    ∀ out, stage1 cols rows ≠ Except.ok out := by
  refine ⟨by simp [stage1, h], fun out hcon => ?_⟩
  rw [stage1, if_pos h] at hcon
  cases hcon

/-- Witness for `stage1_missing_columns_abort`: a header holding only the
participant column. -/
theorem stage1_missing_columns_abort_witness :
    missingCols ["Participant Private ID"] ≠ [] ∧
    stage1 ["Participant Private ID"] [] =
      Except.error (missingCols ["Participant Private ID"],
        stripHeader ["Participant Private ID"]) :=
  ⟨by decide, (stage1_missing_columns_abort ["Participant Private ID"] [] (by decide)).1⟩

/-- **C8** (amended): in exact arithmetic the metric values satisfy
paraphrasing + elaboration = total_effort, with all three 0 when the
passage token set is empty.  The program's IEEE-double metrics are only
the correctly-rounded approximations of these exact ratios, and the
identity can fail for the stored doubles, so exactness holds of the
ratios, not of the floats. -/
theorem paraphrasing_add_elaboration_eq_total_effort (R : Finset String)
    (sents : List (Finset String)) :
    ((rsat_score R sents).paraphrasing + (rsat_score R sents).elaboration =
      total_effort (rsat_score R sents).effort (rsat_score R sents).total_words) ∧
    (allPassageWords sents = ∅ →
      (rsat_score R sents).paraphrasing = 0 ∧ (rsat_score R sents).elaboration = 0 ∧
      total_effort (rsat_score R sents).effort (rsat_score R sents).total_words = 0) := by
  constructor
  · by_cases h : allPassageWords sents = ∅
    · simp [rsat_score, total_effort, h]
    · have hc : (allPassageWords sents).card ≠ 0 := by
        simpa [Finset.card_eq_zero] using h
      have key : (R ∩ allPassageWords sents).card + (R \ allPassageWords sents).card = R.card :=
        Finset.card_inter_add_card_sdiff R (allPassageWords sents)
      simp only [rsat_score, total_effort, if_pos h, hc]
      simp only [ne_eq, h, not_false_eq_true, if_true, hc, if_pos]
      rw [div_add_div_same, ← Nat.cast_add, key]
  · intro h
    simp [rsat_score, total_effort, h]

/-- Witness for `paraphrasing_add_elaboration_eq_total_effort` at the
scenario response against an empty sentence list. -/
theorem paraphrasing_add_elaboration_eq_total_effort_witness :
    ((rsat_score (tokenize (some "alpha")) []).paraphrasing +
        (rsat_score (tokenize (some "alpha")) []).elaboration =
      total_effort (rsat_score (tokenize (some "alpha")) []).effort
        (rsat_score (tokenize (some "alpha")) []).total_words) ∧
    (rsat_score (tokenize (some "alpha")) []).paraphrasing = 0 ∧
    (rsat_score (tokenize (some "alpha")) []).elaboration = 0 ∧
    total_effort (rsat_score (tokenize (some "alpha")) []).effort
      (rsat_score (tokenize (some "alpha")) []).total_words = 0 :=
  ⟨(paraphrasing_add_elaboration_eq_total_effort (tokenize (some "alpha")) []).1,
   (paraphrasing_add_elaboration_eq_total_effort (tokenize (some "alpha")) []).2 rfl⟩

/-- **C8** (corrected, counterexample): at the concrete scored input —
passage "t1 t2 ... t10" (10 distinct tokens), response "t1 u1 u2" (one
overlapping token, two new) — the exact metric values are 0.1, 0.2 and
0.3.  The program stores their IEEE binary64 roundings, since IEEE
division is correctly rounded; those roundings are certified below as the
unique strictly-nearest representable values.  The stored doubles violate
paraphrasing + elaboration = total_effort: their exact sum differs from
the stored 0.3, and the stored 0.3 is not even a nearest double of that
sum (the sum lies exactly between the stored 0.3 and its upper
neighbour, and the tie-to-even rule picks the neighbour). -/
theorem float_additivity_counterexample :
    (rsat_score (tokenize (some "t1 u1 u2"))
      (split_sentences (some "t1 t2 t3 t4 t5 t6 t7 t8 t9 t10"))).paraphrasing = 1/10 ∧
    (rsat_score (tokenize (some "t1 u1 u2"))
      (split_sentences (some "t1 t2 t3 t4 t5 t6 t7 t8 t9 t10"))).elaboration = 2/10 ∧
    total_effort
      (rsat_score (tokenize (some "t1 u1 u2"))
        (split_sentences (some "t1 t2 t3 t4 t5 t6 t7 t8 t9 t10"))).effort
      (rsat_score (tokenize (some "t1 u1 u2"))
        (split_sentences (some "t1 t2 t3 t4 t5 t6 t7 t8 t9 t10"))).total_words = 3/10 ∧
    IsNearestDouble (1/10) ((7205759403792794:ℚ) * (2:ℚ)^(-56:ℤ)) ∧
    IsNearestDouble (2/10) ((7205759403792794:ℚ) * (2:ℚ)^(-55:ℤ)) ∧
    IsNearestDouble (3/10) ((5404319552844595:ℚ) * (2:ℚ)^(-54:ℤ)) ∧
    (7205759403792794:ℚ) * (2:ℚ)^(-56:ℤ) + (7205759403792794:ℚ) * (2:ℚ)^(-55:ℤ) ≠
      (5404319552844595:ℚ) * (2:ℚ)^(-54:ℤ) ∧
    ¬ IsNearestDouble
      ((7205759403792794:ℚ) * (2:ℚ)^(-56:ℤ) + (7205759403792794:ℚ) * (2:ℚ)^(-55:ℤ))
      ((5404319552844595:ℚ) * (2:ℚ)^(-54:ℤ)) := by
  have hcard1 : (tokenize (some "t1 u1 u2") ∩
      allPassageWords (split_sentences (some "t1 t2 t3 t4 t5 t6 t7 t8 t9 t10"))).card = 1 := by
    decide
  have hcard2 : (tokenize (some "t1 u1 u2") \
      allPassageWords (split_sentences (some "t1 t2 t3 t4 t5 t6 t7 t8 t9 t10"))).card = 2 := by
    decide
  have hcard3 : (tokenize (some "t1 u1 u2")).card = 3 := by decide
  have hcard10 : (allPassageWords
      (split_sentences (some "t1 t2 t3 t4 t5 t6 t7 t8 t9 t10"))).card = 10 := by decide
  have hne10 : allPassageWords
      (split_sentences (some "t1 t2 t3 t4 t5 t6 t7 t8 t9 t10")) ≠ ∅ := by decide
  have e1 : (2:ℚ)^(-55:ℤ) = 2 * (2:ℚ)^(-56:ℤ) := by
    rw [show (-55:ℤ) = 1 + -56 by norm_num, zpow_add₀ (by norm_num : (2:ℚ) ≠ 0)]
    norm_num
  have e2 : (2:ℚ)^(-54:ℤ) = 4 * (2:ℚ)^(-56:ℤ) := by
    rw [show (-54:ℤ) = 2 + -56 by norm_num, zpow_add₀ (by norm_num : (2:ℚ) ≠ 0)]
    norm_num
  have hp : (0:ℚ) < (2:ℚ)^(-56:ℤ) := zpow_pos (by norm_num) _
  refine ⟨?_, ?_, ?_, ?_, ?_, ?_, ?_, ?_⟩
  · simp only [rsat_score, hcard1, hcard10, if_pos hne10]
    norm_num
  · simp only [rsat_score, hcard2, hcard10, if_pos hne10]
    norm_num
  · simp only [rsat_score, total_effort, hcard3, hcard10]
    norm_num
  · exact isNearestDouble_cert 7205759403792794 (-56) (1/10) (by norm_num) (by norm_num)
      (by rw [abs_lt]; norm_num)
  · exact isNearestDouble_cert 7205759403792794 (-55) (2/10) (by norm_num) (by norm_num)
      (by rw [abs_lt]; norm_num)
  · exact isNearestDouble_cert 5404319552844595 (-54) (3/10) (by norm_num) (by norm_num)
      (by rw [abs_lt]; norm_num)
  · intro h
    rw [e1, e2] at h
    nlinarith [h, hp]
  · rintro ⟨-, hstrict⟩
    have hne : (5404319552844596:ℚ) * (2:ℚ)^(-54:ℤ) ≠
        (5404319552844595:ℚ) * (2:ℚ)^(-54:ℤ) := by
      intro h
      rw [e2] at h
      nlinarith [h, hp]
    have hlt := hstrict ((5404319552844596:ℚ) * (2:ℚ)^(-54:ℤ))
      ⟨5404319552844596, -54, by norm_num, rfl⟩ hne
    rw [e1, e2] at hlt
    have habs1 : |(7205759403792794:ℚ) * (2:ℚ)^(-56:ℤ) +
        7205759403792794 * (2 * (2:ℚ)^(-56:ℤ)) - 5404319552844595 * (4 * (2:ℚ)^(-56:ℤ))| =
        2 * (2:ℚ)^(-56:ℤ) := by
      rw [show (7205759403792794:ℚ) * (2:ℚ)^(-56:ℤ) +
        7205759403792794 * (2 * (2:ℚ)^(-56:ℤ)) - 5404319552844595 * (4 * (2:ℚ)^(-56:ℤ)) =
        2 * (2:ℚ)^(-56:ℤ) from by ring]
      exact abs_of_pos (by positivity)
    have habs2 : |(7205759403792794:ℚ) * (2:ℚ)^(-56:ℤ) +
        7205759403792794 * (2 * (2:ℚ)^(-56:ℤ)) - 5404319552844596 * (4 * (2:ℚ)^(-56:ℤ))| =
        2 * (2:ℚ)^(-56:ℤ) := by
      rw [show (7205759403792794:ℚ) * (2:ℚ)^(-56:ℤ) +
        7205759403792794 * (2 * (2:ℚ)^(-56:ℤ)) - 5404319552844596 * (4 * (2:ℚ)^(-56:ℤ)) =
        -(2 * (2:ℚ)^(-56:ℤ)) from by ring, abs_neg]
      exact abs_of_pos (by positivity)
    rw [habs1, habs2] at hlt
    exact lt_irrefl _ hlt

/-- **C7**: every token returned by `tokenize` is a non-empty, lowercase
string of word characters, and `tokenize("")` and `tokenize(None)` are the
empty set. -/
theorem tokenize_wellformed (T : Option String) (t : String) (h : t ∈ tokenize T) :
    (t ≠ "" ∧ ∀ c ∈ t.toList, isWordChar c = true ∧ c.isUpper = false) ∧
    tokenize (some "") = ∅ ∧ tokenize none = ∅ := by
  refine ⟨?_, by decide, by decide⟩
  rw [tokenize_eq_tokSetL, tokSetL, List.mem_toFinset] at h
  rcases List.mem_map.mp h with ⟨w, hw, rfl⟩
  rw [List.mem_filter] at hw
  obtain ⟨hwmem, hwne⟩ := hw
  have hwne' : w ≠ [] := by simpa using hwne
  have htol : (String.mk w).toList = w := rfl
  refine ⟨?_, ?_⟩
  · intro hcon
    exact hwne' (by simpa using congrArg String.toList hcon)
  · intro c hc
    rw [htol] at hc
    refine ⟨splitSingle_word_chars _ [] (by simp) w hwmem c hc, ?_⟩
    rcases splitSingle_chars nonWordChar _ [] w hwmem c hc with h0 | hmem
    · cases h0
    · rcases List.mem_map.mp hmem with ⟨d, _, rfl⟩
      exact isUpper_toLower d

/-- Witness for `tokenize_wellformed` at the token "cat" of "Cat!". -/
theorem tokenize_wellformed_witness :
    (("cat" : String) ≠ "" ∧
      ∀ c ∈ ("cat" : String).toList, isWordChar c = true ∧ c.isUpper = false) ∧
    tokenize (some "") = ∅ ∧ tokenize none = ∅ :=
  tokenize_wellformed (some "Cat!") "cat" (by decide)

/-- **C9**: the union of the token sets produced by `split_sentences`
equals `tokenize` of the whole text, so `rsat_score` depends on the
passage only through its full token set and sentence segmentation never
affects any score. -/
theorem sentence_segmentation_irrelevant (t : Option String) :
    allPassageWords (split_sentences t) = tokenize t ∧
    ∀ R : Finset String, rsat_score R (split_sentences t) = rsat_score R [tokenize t] := by
  have hmain : allPassageWords (split_sentences t) = tokenize t := by
    simp only [split_sentences]
    rw [sentence_union_go _ []]
    rw [tokenize_eq_tokSetL]
    rfl
  refine ⟨hmain, fun R => ?_⟩
  simp only [rsat_score, allPassageWords_cons, allPassageWords_nil, Finset.union_empty, hmain]

/-- **C10**: paraphrasing always lies in [0, 1]; elaboration and
total_effort are non-negative but exceed 1.0 on some inputs (response
"alpha beta gamma" against passage "delta"), although the output header
labels all three columns with "(%)". -/
theorem metric_ranges_and_percent_labels :
    (∀ (R : Finset String) (sents : List (Finset String)),
      0 ≤ (rsat_score R sents).paraphrasing ∧ (rsat_score R sents).paraphrasing ≤ 1 ∧
      0 ≤ (rsat_score R sents).elaboration ∧
      0 ≤ total_effort (rsat_score R sents).effort (rsat_score R sents).total_words) ∧
    1 < (rsat_score (tokenize (some "alpha beta gamma"))
        (split_sentences (some "delta"))).elaboration ∧
    1 < total_effort
        (rsat_score (tokenize (some "alpha beta gamma")) (split_sentences (some "delta"))).effort
        (rsat_score (tokenize (some "alpha beta gamma"))
          (split_sentences (some "delta"))).total_words ∧
    "paraphrasing (%)" ∈ fieldnames ∧ "elaboration (%)" ∈ fieldnames ∧
    "total_effort (%)" ∈ fieldnames := by
  refine ⟨fun R sents => ?_, ?_, ?_, by decide, by decide, by decide⟩
  · by_cases h : allPassageWords sents = ∅
    · simp [rsat_score, total_effort, h]
    · have hc : (allPassageWords sents).card ≠ 0 := by
        simpa [Finset.card_eq_zero] using h
      have hpos : (0 : ℚ) < (allPassageWords sents).card := by
        exact_mod_cast Nat.pos_of_ne_zero hc
      simp only [rsat_score, total_effort, if_pos h, ne_eq, h, not_false_eq_true, if_true,
        hc, if_pos]
      refine ⟨div_nonneg (by positivity) hpos.le, ?_,
        div_nonneg (by positivity) hpos.le, div_nonneg (by positivity) hpos.le⟩
      rw [div_le_one hpos]
      exact_mod_cast Finset.card_le_card Finset.inter_subset_right
  · have h2 : (tokenize (some "alpha beta gamma") \
        allPassageWords (split_sentences (some "delta"))).card = 3 := by decide
    have h1 : (allPassageWords (split_sentences (some "delta"))).card = 1 := by decide
    have hne : allPassageWords (split_sentences (some "delta")) ≠ ∅ := by decide
    simp only [rsat_score, h2, h1, if_pos hne]
    norm_num
  · have h3 : (tokenize (some "alpha beta gamma")).card = 3 := by decide
    have h1 : (allPassageWords (split_sentences (some "delta"))).card = 1 := by decide
    simp only [rsat_score, total_effort, h3, h1]
    norm_num

/-- **C5** (corrected, counterexample): the warning emitted for an
unmatched article key names only the key; it contains neither the row's
participant id ("77") nor its question id ("Q9"), so the claim that the
warning identifies the participant and question context is false. -/
theorem unmatched_warning_lacks_context :
    processRows (loadPassages [⟨some "A1", some "The cat sat."⟩])
        [⟨some "77", some "ZZZ", some "Q9", some "hello"⟩] =
      ([], [warnMsg "zzz"]) ∧
    ¬ ("77".toList <:+: (warnMsg "zzz").toList) ∧
    ¬ ("Q9".toList <:+: (warnMsg "zzz").toList) := by
  exact ⟨by decide, by decide, by decide⟩

/-- **C5** (amended): a response row whose cleaned article key has no
passage entry produces no output row and exactly one warning — a warning
that names the unmatched key but not the participant/question context —
and the remaining rows are still processed. -/
theorem unmatched_passage_skip_warn (passages : String → Option String) (row : RespRow)
    (rest : List RespRow)
    (hpid : pyStrip (pyOrEmpty row.pid) ≠ "")
    (haid : lowerStr (pyStrip (pyOrEmpty row.article_id)) ≠ "")
    (hresp : pyStrip (pyOrEmpty row.summary_text) ≠ "")
    (hmiss : passages (lowerStr (pyStrip (pyOrEmpty row.article_id))) = none) :
    processRows passages (row :: rest) =
      ((processRows passages rest).1,
        warnMsg (lowerStr (pyStrip (pyOrEmpty row.article_id))) ::
          (processRows passages rest).2) ∧
    (lowerStr (pyStrip (pyOrEmpty row.article_id))).toList <:+:
      (warnMsg (lowerStr (pyStrip (pyOrEmpty row.article_id)))).toList := by
  constructor
  · simp only [processRows, processRow]
    rw [if_neg (by push_neg; exact ⟨hpid, haid, hresp⟩), hmiss]
    simp
  · rw [warnMsg]
    show _ <:+: ("Warning: no passage for Article_ID=\x27" ++
      lowerStr (pyStrip (pyOrEmpty row.article_id)) ++ "\x27").toList
    rw [show ∀ s u v : String, (s ++ u ++ v).toList = s.toList ++ u.toList ++ v.toList from
      fun s u v => by simp [String.toList, String.data_append]]
    exact List.infix_append _ _ _

/-- Witness for `unmatched_passage_skip_warn`: row with participant "77",
article "ZZZ" and a passage table holding only key "a1"; the following
row is still scored. -/
theorem unmatched_passage_skip_warn_witness :
    processRows (loadPassages [⟨some "A1", some "The cat sat."⟩])
        (⟨some "77", some "ZZZ", some "Q9", some "hello"⟩ ::
          [⟨some "88", some "A1", some "Q1", some "cat"⟩]) =
      ((processRows (loadPassages [⟨some "A1", some "The cat sat."⟩])
          [⟨some "88", some "A1", some "Q1", some "cat"⟩]).1,
        warnMsg (lowerStr (pyStrip (pyOrEmpty (some "ZZZ")))) ::
          (processRows (loadPassages [⟨some "A1", some "The cat sat."⟩])
            [⟨some "88", some "A1", some "Q1", some "cat"⟩]).2) ∧
    (lowerStr (pyStrip (pyOrEmpty (some "ZZZ")))).toList <:+:
      (warnMsg (lowerStr (pyStrip (pyOrEmpty (some "ZZZ"))))).toList :=
  unmatched_passage_skip_warn (loadPassages [⟨some "A1", some "The cat sat."⟩])
    ⟨some "77", some "ZZZ", some "Q9", some "hello"⟩
    [⟨some "88", some "A1", some "Q1", some "cat"⟩]
    (by decide) (by decide) (by decide) (by decide)

